import Mathlib

/-!
# Verification of the WebBorrow inventory-table parser

A shallow embedding of `webborrow/app.py`: the ANSI stripper, the
section-classifying machine-table parser, the summary extractor, and the
HTTP-facing decision logic of the machine-listing, borrow and free endpoints.

Text is modelled as `List Char`.  The helper functions `pySplit`, `pyStrip`,
`pyLower`, `pyReplace`, `pyInt` and `containsSub` model the Python string
operations `str.split(sep)`, `str.strip()`, `str.lower()`, `str.replace`,
`int(...)` and the `in` operator; deviations from full Python semantics
(Unicode case folding, Unicode digits, underscore digit separators) are noted
on each definition.

The source file's box-drawing characters appear in the Python source as
three-character mojibake sequences (e.g. the column separator is the literal
three characters U+201A U+00EE U+00C7); the embedding uses those exact
character sequences.
-/

namespace Webborrow

/-- Text is a list of characters. -/
abbrev Str := List Char

/-- ASCII whitespace, as stripped by Python's `str.strip()` / matched by
regex `\s` (the Python versions also cover further Unicode whitespace,
which is not modelled). -/
def pyIsSpace (c : Char) : Bool :=
  c = ' ' || c = '\t' || c = '\n' || c = '\r' || c = '\x0b' || c = '\x0c'

/-- `strStarts p s` holds when `p` is a (contiguous) prefix of `s`,
modelling Python's `str.startswith` used implicitly by substring search. -/
def strStarts : Str → Str → Bool
  | [], _ => true
  | _ :: _, [] => false
  | a :: ps, b :: ss => a = b && strStarts ps ss

/-- `containsSub needle hay` models Python's `needle in hay` substring test. -/
def containsSub (needle : Str) : Str → Bool
  | [] => needle.isEmpty
  | c :: cs => strStarts needle (c :: cs) || containsSub needle cs

/-- Fuel-driven worker for `pySplit`; `fuel` bounds the number of steps and is
initialised to the length of the string, which suffices because every step
consumes at least one character. -/
def pySplitGo (sep : Str) : Nat → Str → Str → List Str
  | _, [], acc => [acc.reverse]
  | 0, s, acc => [acc.reverse ++ s]
  | n + 1, c :: cs, acc =>
    if strStarts sep (c :: cs) then
      acc.reverse :: pySplitGo sep n (List.drop sep.length (c :: cs)) []
    else
      pySplitGo sep n cs (c :: acc)

/-- Python's `s.split(sep)` for a non-empty separator: non-overlapping
leftmost occurrences, keeping empty segments. -/
def pySplit (sep s : Str) : List Str :=
  pySplitGo sep s.length s []

/-- Python's `s.strip()` (ASCII whitespace, see `pyIsSpace`). -/
def pyStrip (s : Str) : Str :=
  ((s.dropWhile pyIsSpace).reverse.dropWhile pyIsSpace).reverse

/-- Python's `s.lower()`, restricted to ASCII case folding
(`Char.toLower` only folds `A`-`Z`; Python also folds further Unicode). -/
def pyLower (s : Str) : Str :=
  s.map Char.toLower

/-- Fuel-driven worker for `pyReplace`. -/
def pyReplaceGo (old new : Str) : Nat → Str → Str
  | _, [] => []
  | 0, s => s
  | n + 1, c :: cs =>
    if strStarts old (c :: cs) then
      new ++ pyReplaceGo old new n (List.drop old.length (c :: cs))
    else
      c :: pyReplaceGo old new n cs

/-- Python's `s.replace(old, new)` for non-empty `old`: replaces all
non-overlapping occurrences, scanning left to right. -/
def pyReplace (old new s : Str) : Str :=
  pyReplaceGo old new s.length s

/-- Value of a decimal digit character. -/
def digitVal (c : Char) : Nat := c.toNat - '0'.toNat

/-- Parse a non-empty string of ASCII decimal digits. -/
def pyIntDigits (ds : Str) : Option Nat :=
  if ds ≠ [] ∧ ds.all Char.isDigit then
    some (ds.foldl (fun a c => a * 10 + digitVal c) 0)
  else none

/-- Python's `int(s)`: surrounding whitespace stripped, optional sign,
decimal digits.  (Python additionally accepts underscore digit separators
and Unicode digits, which are not modelled.)  Failure (`ValueError`)
is `none`. -/
def pyInt (s : Str) : Option Int :=
  match pyStrip s with
  | '-' :: ds => (pyIntDigits ds).map (fun n => -(n : Int))
  | '+' :: ds => (pyIntDigits ds).map (fun n => (n : Int))
  | ds => (pyIntDigits ds).map (fun n => (n : Int))

/-! ## ANSI stripping

`strip_ansi` in the source substitutes the regex `ESC \[ [0-9;]* m` by the
empty string.  The embedding runs a left-to-right scanner with an explicit
pending state, which matches `re.sub`'s leftmost non-overlapping semantics:
a failed partial match is flushed verbatim and scanning resumes at the
current character (a new match can only start at an ESC character, and a
flushed pending buffer contains no ESC beyond its head). -/

/-- The escape character `\x1b`. -/
def escChar : Char := '\x1b'

/-- Characters allowed in the body of an SGR sequence: `[0-9;]`. -/
def isDigitSemi (c : Char) : Bool := c.isDigit || c = ';'

/-- Scanner state: outside any candidate match, after `ESC`, or after
`ESC [` with the accumulated (reversed) run of digits/semicolons. -/
inductive SA where
  | none : SA
  | esc : SA
  | brk (run : Str) : SA
deriving DecidableEq

/-- Characters held back by the scanner in state `st`, in source order. -/
def pend : SA → Str
  | SA.none => []
  | SA.esc => [escChar]
  | SA.brk run => escChar :: '[' :: run.reverse

/-- The ANSI scanner: removes every match of `ESC \[ [0-9;]* m`, flushing
failed partial matches verbatim. -/
def saGo : SA → Str → Str
  | SA.none, [] => []
  | SA.esc, [] => [escChar]
  | SA.brk run, [] => escChar :: '[' :: run.reverse
  | SA.none, c :: cs =>
    if c = escChar then saGo SA.esc cs else c :: saGo SA.none cs
  | SA.esc, c :: cs =>
    if c = '[' then saGo (SA.brk []) cs
    else escChar :: (if c = escChar then saGo SA.esc cs else c :: saGo SA.none cs)
  | SA.brk run, c :: cs =>
    if c = 'm' then saGo SA.none cs
    else if isDigitSemi c then saGo (SA.brk (c :: run)) cs
    else escChar :: '[' :: run.reverse ++
      (if c = escChar then saGo SA.esc cs else c :: saGo SA.none cs)

/-- `strip_ansi` from the source: remove all matches of `ESC \[ [0-9;]* m`. -/
def strip_ansi (s : Str) : Str := saGo SA.none s

/-- Does the run of digits/semicolons at the head of `r` terminate in `m`?
(The tail of an SGR match after `ESC [`.) -/
def runM (r : Str) : Bool :=
  match r.drop ((r.takeWhile isDigitSemi).length) with
  | 'm' :: _ => true
  | _ => false

/-- Does an SGR sequence start right after an `ESC` at the head of `cs`? -/
def sgrHead : Str → Bool
  | '[' :: r => runM r
  | _ => false

/-- Does an SGR sequence start at the head of `s`? -/
def sgrAt : Str → Bool
  | c :: cs => c = escChar && sgrHead cs
  | [] => false

/-- Does `s` contain a match of `ESC \[ [0-9;]* m` anywhere? -/
def hasSGR : Str → Bool
  | [] => false
  | c :: cs => (c = escChar && sgrHead cs) || hasSGR cs

/-- `s` is exactly one SGR escape sequence `ESC [ run m` with
`run` over `[0-9;]`. -/
def IsSGRSeq (s : Str) : Prop :=
  ∃ run, (∀ c ∈ run, isDigitSemi c = true) ∧ s = escChar :: '[' :: (run ++ ['m'])

/-! ## Box-drawing separators

The Python source contains each box-drawing character as a literal
three-character mojibake sequence starting with U+201A; the constants below
are those exact sequences (`sVBar` is the source's `'‚îÇ'`, etc.). -/

/-- Column separator of data tables (the source's single vertical bar). -/
def sVBar : Str := "‚îÇ".toList

/-- Horizontal rule of data tables. -/
def sHRule : Str := "‚îÄ".toList

/-- Top-left corner decoration. -/
def sTopLeft : Str := "‚îå".toList

/-- Bottom-left corner decoration. -/
def sBotLeft : Str := "‚îî".toList

/-- Left tee decoration. -/
def sLeftTee : Str := "‚îú".toList

/-- Double-line horizontal rule (summary table). -/
def sDHRule : Str := "‚ïê".toList

/-- Double-line vertical bar (summary table column separator). -/
def sDVBar : Str := "‚ïë".toList

/-! ## Machine table parser -/

/-- Derived machine state (`machine['state']` in the source). -/
inductive MachineState where
  | available
  | offline
  | no_ssh
  | no_cheetah
  | deployed
  | borrowed
deriving DecidableEq

/-- The value of `current_section` in `parse_machine_table`: the source
stores the strings `'standalone'`, `'cluster_<id>'`, `'ixia'`, `'summary'`
(or `None`, modelled by `Option`). -/
inductive Section where
  | standalone
  | cluster (id : Str)
  | ixia
  | summary
deriving DecidableEq

/-- The loop state of `parse_machine_table`: `current_section`,
`current_cluster` and `is_cluster_table`. -/
structure PState where
  current_section : Option Section
  current_cluster : Option Str
  is_cluster_table : Bool
deriving DecidableEq

/-- A machine row before state classification: the dictionary built at the
column-mapping step.  `nce_id` is only present for cluster rows. -/
structure RawRow where
  nce_id : Option Str
  vendor : Str
  type : Str
  revision : Str
  name : Str
  baseos_version : Str
  status : Str
  borrow_uptime : Str
  git_branch : Str
  last_connection : Str
  comment : Str
  cluster : Option Str
deriving DecidableEq

/-- A fully classified machine record (the dictionaries appended to
`machines`). -/
structure Machine extends RawRow where
  state : MachineState
  borrower : Option Str
deriving DecidableEq

/-- The status-classification chain from the source (lines 168-190):
first-match priority over the lowercased status text, with the borrowed
fallback extracting the borrower from the status. -/
def classifyStatus (status : Str) : MachineState × Option Str :=
  let status_lower := pyLower status
  if containsSub ("available").toList status_lower then (.available, none)
  else if containsSub ("no ping").toList status_lower then (.offline, none)
  else if containsSub ("no ssh").toList status_lower then (.no_ssh, none)
  else if containsSub ("no cheetah").toList status_lower then (.no_cheetah, none)
  else if containsSub ("deploy").toList status_lower
      && !containsSub ("(").toList status_lower then (.deployed, none)
  else
    let borrower := pyStrip (pyReplace ("(deploy)").toList [] status)
    (.borrowed, some (if borrower = [] then status else borrower))

/-- Attach the derived `state` and `borrower` fields to a raw row. -/
def finishMachine (r : RawRow) : Machine :=
  { r with
    state := (classifyStatus r.status).1
    borrower := (classifyStatus r.status).2 }

/-- `re.search(r'Cluster\s+(\d+)', line)`: try to match at the head of `s`
and return the digit group.  The regex engine's greedy `\s+`/`\d+` have no
useful backtracking here because the classes are disjoint from what follows,
so the match is the maximal whitespace run followed by the maximal digit
run. -/
def clusterNumAt (s : Str) : Option Str :=
  if strStarts ("Cluster").toList s then
    let rest := s.drop 7
    let sp := rest.takeWhile pyIsSpace
    if sp.isEmpty then none
    else
      let ds := (rest.drop sp.length).takeWhile Char.isDigit
      if ds.isEmpty then none else some ds
  else none

/-- `re.search` scans left to right for the first position where the whole
pattern matches. -/
def findClusterNum : Str → Option Str
  | [] => none
  | c :: cs =>
    match clusterNumAt (c :: cs) with
    | some d => some d
    | none => findClusterNum cs

/-- Net effect of the guard at source lines 97-100 (a convoluted
short-circuiting condition over the section string): the line is processed
further exactly when the current section is `standalone` or a
`cluster_<id>` section; for `None`, `ixia` and `summary` the loop
`continue`s. -/
def sectionAllows : Option Section → Bool
  | some .standalone => true
  | some (.cluster _) => true
  | _ => false

/-- Row tokenization (source lines 114-116): split on the column separator,
strip each field, drop empty fields. -/
def tokenize (line : Str) : List Str :=
  ((pySplit sVBar line).map pyStrip).filter (fun p => !p.isEmpty)

/-- Column mapping for a cluster row (source lines 126-139):
`parts[k] if len(parts) > k else ''`, with the first column as `nce_id`
and `cluster` set from the loop's `current_cluster`. -/
def mkClusterRow (parts : List Str) (cl : Option Str) : RawRow :=
  { nce_id := some (parts.getD 0 [])
    vendor := parts.getD 1 []
    type := parts.getD 2 []
    revision := parts.getD 3 []
    name := parts.getD 4 []
    baseos_version := parts.getD 5 []
    status := parts.getD 6 []
    borrow_uptime := parts.getD 7 []
    git_branch := parts.getD 8 []
    last_connection := parts.getD 9 []
    comment := parts.getD 10 []
    cluster := cl }

/-- Column mapping for a standalone row (source lines 143-155); the
standalone dictionary has no `nce_id` key and `cluster` is `None`. -/
def mkStandaloneRow (parts : List Str) : RawRow :=
  { nce_id := none
    vendor := parts.getD 0 []
    type := parts.getD 1 []
    revision := parts.getD 2 []
    name := parts.getD 3 []
    baseos_version := parts.getD 4 []
    status := parts.getD 5 []
    borrow_uptime := parts.getD 6 []
    git_branch := parts.getD 7 []
    last_connection := parts.getD 8 []
    comment := parts.getD 9 []
    cluster := none }

/-- Section-header detection (source lines 76-94, the first four `elif`
arms): when the line is recognized as a section marker the loop updates
its state and `continue`s; the result is the updated state, or `none`
when the line is not a section marker.  A line containing "Cluster" (and
no horizontal rule) `continue`s even when the numeric id is missing, with
the state unchanged. -/
def lineHeader (st : PState) (line : Str) : Option PState :=
  if containsSub ("Stand alone").toList line then
    some ⟨some .standalone, none, false⟩
  else if containsSub ("Cluster").toList line && !containsSub sHRule line then
    some (match findClusterNum line with
          | some d => ⟨some (.cluster d), some d, true⟩
          | none => st)
  else if containsSub ("DP IXIAs").toList line then
    some { st with current_section := some .ixia }
  else if containsSub ("Total").toList line && containsSub ("Free").toList line
      && containsSub ("Taken").toList line then
    some { st with current_section := some .summary }
  else none

/-- The `continue` guards for non-section lines (source lines 96-112):
inactive section, no column separator, decoration characters, or header
tokens. -/
def lineSkip (st : PState) (line : Str) : Bool :=
  !sectionAllows st.current_section
  || !containsSub sVBar line
  || (containsSub sHRule line || containsSub sTopLeft line
      || containsSub sBotLeft line || containsSub sLeftTee line
      || containsSub sDHRule line)
  || (containsSub ("wbox_name").toList line
      || (containsSub ("vendor").toList line && containsSub ("type").toList line
          && containsSub ("revision").toList line))

/-- Row construction (source lines 114-155): tokenize, require at least 6
fields, then map columns according to the table type.  While the cluster
flag is set the standalone arm is unreachable, so a cluster row with
fewer than 10 fields yields nothing. -/
def rowOf (st : PState) (line : Str) : Option RawRow :=
  let parts := tokenize line
  if parts.length < 6 then none
  else if st.is_cluster_table = true ∧ 10 ≤ parts.length then
    some (mkClusterRow parts st.current_cluster)
  else if st.is_cluster_table = false ∧ 6 ≤ parts.length then
    some (mkStandaloneRow parts)
  else none

/-- The row-level discards of source lines 157-166 (missing or header
name, empty continuation row), then emission of the classified record. -/
def rowEmit (st : PState) (r : RawRow) : PState × Option Machine :=
  if r.name.isEmpty then (st, none)
  else if r.name = ("wbox_name").toList then (st, none)
  else if r.name.isEmpty && r.vendor.isEmpty then (st, none)
  else (st, some (finishMachine r))

/-- One iteration of the `for line in lines` loop of `parse_machine_table`:
returns the updated loop state and the machine record appended by this
line, if any. -/
def stepLine (st : PState) (line : Str) : PState × Option Machine :=
  match lineHeader st line with
  | some st' => (st', none)
  | none =>
    if lineSkip st line then (st, none)
    else
      match rowOf st line with
      | none => (st, none)
      | some r => rowEmit st r

/-- The machine-table loop over the lines, threading the loop state and
collecting emitted records. -/
def runLines : PState → List Str → List Machine
  | _, [] => []
  | st, l :: ls =>
    match stepLine st l with
    | (st', some m) => m :: runLines st' ls
    | (st', none) => runLines st' ls

/-- `parse_machine_table` from the source: strip ANSI codes, split into
lines, run the section-classifying loop. -/
def parse_machine_table (output : Str) : List Machine :=
  runLines ⟨none, none, false⟩ (pySplit ['\n'] (strip_ansi output))

/-! ## Summary parser -/

/-- The summary record. -/
structure Summary where
  total : Int
  free : Int
  taken : Int
  taken_not_used : Int
deriving DecidableEq

/-- `vals = [int(p) for p in parts]` guarded by `except ValueError`:
all fields parse as integers or the whole comprehension fails. -/
def intsOf : List Str → Option (List Int)
  | [] => some []
  | p :: ps =>
    match pyInt p, intsOf ps with
    | some v, some vs => some (v :: vs)
    | _, _ => none

/-- What one line of `parse_summary`'s scan yields (source lines 211-228):
a line using the double-line vertical bar and no double-line rule, whose
split yields exactly 4 non-empty fields, all parsing as integers
(`ValueError` on any field skips the line) that are non-negative with
`total >= free`. -/
def summaryLineCand (line : Str) : Option Summary :=
  if containsSub sDVBar line && !containsSub sDHRule line then
    let parts := ((pySplit sDVBar line).map pyStrip).filter (fun p => !p.isEmpty)
    if parts.length = 4 then
      match intsOf parts with
      | some vals =>
        if (∀ v ∈ vals, 0 ≤ v) ∧ vals.getD 1 0 ≤ vals.getD 0 0 then
          some ⟨vals.getD 0 0, vals.getD 1 0, vals.getD 2 0, vals.getD 3 0⟩
        else none
      | none => none
    else none
  else none

/-- The scan of `parse_summary`: first accepted line wins (`break`);
otherwise the all-zero default survives. -/
def summaryScan : List Str → Summary
  | [] => ⟨0, 0, 0, 0⟩
  | l :: ls =>
    match summaryLineCand l with
    | some s => s
    | none => summaryScan ls

/-- `parse_summary` from the source. -/
def parse_summary (output : Str) : Summary :=
  summaryScan (pySplit ['\n'] (strip_ansi output))

/-! ## Endpoint decision logic -/

/-- Response of the machine-listing endpoint `get_machines`, given the
subprocess result `(stdout, stderr, returncode)`: a 500 error when the
tool failed with no output, otherwise the parsed machines, summary and
count. -/
structure MachinesResponse where
  machines : List Machine
  summary : Summary
  count : Nat
deriving DecidableEq

/-- `get_machines` (source lines 239-258): error exactly when
`code != 0 and not stdout`. -/
def get_machines (stdout stderr : Str) (code : Int) : Except Str MachinesResponse :=
  if code ≠ 0 ∧ stdout = [] then
    .error (("Failed to fetch machines: ").toList ++ stderr)
  else
    .ok ⟨parse_machine_table stdout, parse_summary stdout,
         (parse_machine_table stdout).length⟩

/-- Response of the borrow/free endpoints: the success flag, the
ANSI-stripped output, the ANSI-stripped stderr of the failure branch, and
the HTTP status code. -/
structure ActionResponse where
  success : Bool
  output : Str
  error : Option Str
  http_status : Nat
deriving DecidableEq

/-- `borrow_machine` (source lines 261-281): success when the exit code is
zero or the ANSI-stripped stdout contains "borrowed" case-insensitively. -/
def borrow_machine (stdout stderr : Str) (code : Int) : ActionResponse :=
  let clean_stdout := strip_ansi stdout
  let clean_stderr := strip_ansi stderr
  if code = 0 ∨ containsSub ("borrowed").toList (pyLower clean_stdout) = true then
    ⟨true, clean_stdout, none, 200⟩
  else
    ⟨false, clean_stdout, some clean_stderr, 400⟩

/-- `free_machine` (source lines 284-304): success when the exit code is
zero or the ANSI-stripped stdout contains "freed" case-insensitively. -/
def free_machine (stdout stderr : Str) (code : Int) : ActionResponse :=
  let clean_stdout := strip_ansi stdout
  let clean_stderr := strip_ansi stderr
  if code = 0 ∨ containsSub ("freed").toList (pyLower clean_stdout) = true then
    ⟨true, clean_stdout, none, 200⟩
  else
    ⟨false, clean_stdout, some clean_stderr, 400⟩

/-! ## Claim-side formulations

Definitions below named `claim...` follow the wording of the spec's claims,
to be compared with the source-derived definitions above. -/

/-- Follows the claim's wording (C4): a qualifying summary line uses the
double-line border separator and no double-line horizontal rule, splits
into exactly four non-empty trimmed fields, all parseable as integers,
all non-negative, with the first value at least the second; the four
values are total, free, taken, taken_not_used in column order. -/
def claimSummaryLine (line : Str) : Option Summary :=
  if containsSub sDVBar line = true ∧ containsSub sDHRule line = false then
    match ((pySplit sDVBar line).map pyStrip).filter (fun p => !p.isEmpty) with
    | [a, b, c, d] =>
      match pyInt a, pyInt b, pyInt c, pyInt d with
      | some t, some f, some k, some u =>
        if 0 ≤ t ∧ 0 ≤ f ∧ 0 ≤ k ∧ 0 ≤ u ∧ f ≤ t then some ⟨t, f, k, u⟩
        else none
      | _, _, _, _ => none
    | _ => none
  else none

/-- Follows the claim's wording (C1): first-match priority over the
case-insensitive status text — "available", then "no ping", then
"no ssh", then "no cheetah", then "deploy" without an opening
parenthesis; otherwise borrowed, with the borrower being the status with
the substring "(deploy)" removed and trimmed, falling back to the raw
status text when that is empty. -/
def claimStateBorrower (status : Str) : MachineState × Option Str :=
  let s := pyLower status
  if containsSub ("available").toList s = true then (.available, none)
  else if containsSub ("no ping").toList s = true then (.offline, none)
  else if containsSub ("no ssh").toList s = true then (.no_ssh, none)
  else if containsSub ("no cheetah").toList s = true then (.no_cheetah, none)
  else if containsSub ("deploy").toList s = true ∧
      containsSub ("(").toList s = false then (.deployed, none)
  else
    let trimmed := pyStrip (pyReplace ("(deploy)").toList [] status)
    (.borrowed, some (if trimmed = [] then status else trimmed))

/-- A default machine record, used only to state closed witnesses. -/
def emptyMachine : Machine :=
  ⟨⟨none, [], [], [], [], [], [], [], [], [], [], none⟩, .available, none⟩

/-- Sample tool output with one borrowed standalone machine. -/
def w1out : Str := ("Stand alone\na‚îÇb‚îÇc‚îÇm1‚îÇv‚îÇjohn (deploy)").toList

/-- Sample tool output with one available standalone machine. -/
def w9out : Str := ("Stand alone\na‚îÇb‚îÇc‚îÇm2‚îÇv‚îÇAvailable").toList

/-- Sample standalone data line for the C3 witness. -/
def w3line : Str := ("a‚îÇb‚îÇc‚îÇm3‚îÇv‚îÇAvailable").toList

/-- Well-formedness of a scanner state: an accumulated run holds only
digits and semicolons. -/
def goodSA : SA → Prop
  | SA.brk run => ∀ c ∈ run, isDigitSemi c = true
  | _ => True


/-- The source's per-line summary candidate coincides with the claim's
description of a qualifying line. -/
theorem summaryLineCand_eq_claim (l : Str) : summaryLineCand l = claimSummaryLine l := by
  unfold summaryLineCand claimSummaryLine
  cases h1 : containsSub sDVBar l with
  | false => simp [h1]
  | true =>
    cases h2 : containsSub sDHRule l with
    | true => simp [h2]
    | false =>
      simp only [h1, h2, Bool.not_false, Bool.and_self, and_self, if_true]
      generalize ((pySplit sDVBar l).map pyStrip).filter (fun p => !p.isEmpty) = ps
      rcases ps with _ | ⟨a, _ | ⟨b, _ | ⟨c, _ | ⟨d, _ | ⟨e, rest⟩⟩⟩⟩⟩
      · simp
      · simp
      · simp
      · simp
      · rw [if_pos (by simp)]
        rcases pa : pyInt a with _ | t <;> rcases pb : pyInt b with _ | f <;>
          rcases pc : pyInt c with _ | k <;> rcases pd : pyInt d with _ | u <;>
          simp only [intsOf, pa, pb, pc, pd]
        have hiff : ((∀ v ∈ [t, f, k, u], 0 ≤ v) ∧
            [t, f, k, u].getD 1 0 ≤ [t, f, k, u].getD 0 0) ↔
            (0 ≤ t ∧ 0 ≤ f ∧ 0 ≤ k ∧ 0 ≤ u ∧ f ≤ t) := by
          constructor
          · rintro ⟨hall, hle⟩
            exact ⟨hall t (by simp), hall f (by simp), hall k (by simp),
              hall u (by simp), hle⟩
          · rintro ⟨ht, hf, hk, hu, hft⟩
            refine ⟨?_, hft⟩
            intro v hv
            simp only [List.mem_cons, List.not_mem_nil, or_false] at hv
            rcases hv with rfl | rfl | rfl | rfl <;> assumption
        rw [if_congr hiff rfl rfl]
        rfl
      · rw [if_neg (by simp)]

/-- The break-based scan equals "first qualifying line wins, default
all-zeros otherwise". -/
theorem summaryScan_eq_findSome (ls : List Str) :
    summaryScan ls = (ls.findSome? claimSummaryLine).getD ⟨0, 0, 0, 0⟩ := by
  induction ls with
  | nil => rfl
  | cons l ls ih =>
    show (match summaryLineCand l with
          | some s => s
          | none => summaryScan ls) = _
    rw [summaryLineCand_eq_claim, List.findSome?_cons]
    cases claimSummaryLine l
    all_goals simp [ih]

/-- C4: `parse_summary` scans the (ANSI-stripped) lines in order and
returns the value of the first line qualifying per the claim's conditions
(double-line separator, no double-line rule, exactly four non-empty
integer fields, non-negative, first ≥ second, read as total, free, taken,
taken_not_used); failing candidates are skipped, and if no line qualifies
the result is all zeros. -/
theorem claim_C4_summary_first_match (out : Str) :
    parse_summary out =
      ((pySplit ['\n'] (strip_ansi out)).findSome? claimSummaryLine).getD ⟨0, 0, 0, 0⟩ :=
  summaryScan_eq_findSome _

/-- A qualifying summary line yields non-negative values with
`free ≤ total`. -/
theorem claimSummaryLine_props {l : Str} {s : Summary}
    (h : claimSummaryLine l = some s) :
    0 ≤ s.total ∧ 0 ≤ s.free ∧ 0 ≤ s.taken ∧ 0 ≤ s.taken_not_used ∧
      s.free ≤ s.total := by
  unfold claimSummaryLine at h
  split at h
  · split at h
    · split at h
      · split at h
        · rename_i hcond
          cases h
          exact hcond
        · cases h
      · cases h
    · cases h
  · cases h

/-- The scan's result always satisfies the summary invariant. -/
theorem summaryScan_props (ls : List Str) :
    0 ≤ (summaryScan ls).total ∧ 0 ≤ (summaryScan ls).free ∧
      0 ≤ (summaryScan ls).taken ∧ 0 ≤ (summaryScan ls).taken_not_used ∧
      (summaryScan ls).free ≤ (summaryScan ls).total := by
  induction ls with
  | nil => exact ⟨le_refl 0, le_refl 0, le_refl 0, le_refl 0, le_refl 0⟩
  | cons l ls ih =>
    simp only [summaryScan, summaryLineCand_eq_claim]
    rcases h : claimSummaryLine l with _ | s
    · exact ih
    · exact claimSummaryLine_props h

/-- C6: for every input text, the summary returned by `parse_summary`
consists of four non-negative integers with `total ≥ free`. -/
theorem claim_C6_summary_invariant (out : Str) :
    0 ≤ (parse_summary out).total ∧ 0 ≤ (parse_summary out).free ∧
      0 ≤ (parse_summary out).taken ∧ 0 ≤ (parse_summary out).taken_not_used ∧
      (parse_summary out).free ≤ (parse_summary out).total :=
  summaryScan_props _

/-- C7: the machine-listing fetch errors exactly when the tool exited
non-zero with empty stdout; a non-zero exit with non-empty stdout is still
parsed and returned with the machine list, summary and count. -/
theorem claim_C7_fetch_error_iff (stdout stderr : Str) (code : Int) :
    ((∃ e, get_machines stdout stderr code = .error e) ↔ (code ≠ 0 ∧ stdout = [])) ∧
      (code ≠ 0 → stdout ≠ [] →
        get_machines stdout stderr code =
          .ok ⟨parse_machine_table stdout, parse_summary stdout,
               (parse_machine_table stdout).length⟩) := by
  unfold get_machines
  by_cases h : code ≠ 0 ∧ stdout = []
  · rw [if_pos h]
    exact ⟨⟨fun _ => h, fun _ => ⟨_, rfl⟩⟩, fun hc hs => absurd h.2 hs⟩
  · rw [if_neg h]
    exact ⟨⟨fun ⟨e, he⟩ => absurd he (by simp), fun hh => absurd hh h⟩,
           fun _ _ => rfl⟩

/-- Closed witness for C7 at a concrete partial-success input. -/
theorem claim_C7_fetch_error_iff_witness :
    (1 : Int) ≠ 0 ∧ ("x").toList ≠ [] ∧
      get_machines ("x").toList [] 1 =
        .ok ⟨parse_machine_table ("x").toList, parse_summary ("x").toList,
             (parse_machine_table ("x").toList).length⟩ :=
  ⟨by decide, by decide,
    (claim_C7_fetch_error_iff ("x").toList [] 1).2 (by decide) (by decide)⟩

/-- C8: the borrow and free endpoints succeed exactly when the exit code is
zero or the ANSI-stripped stdout contains the success keyword
("borrowed" / "freed") case-insensitively; otherwise a failure response
(HTTP 400) is returned. -/
theorem claim_C8_action_success_iff (stdout stderr : Str) (code : Int) :
    ((borrow_machine stdout stderr code).success = true ↔
        (code = 0 ∨ containsSub ("borrowed").toList (pyLower (strip_ansi stdout)) = true)) ∧
    ((free_machine stdout stderr code).success = true ↔
        (code = 0 ∨ containsSub ("freed").toList (pyLower (strip_ansi stdout)) = true)) ∧
    ((borrow_machine stdout stderr code).success = false →
        (borrow_machine stdout stderr code).http_status = 400) ∧
    ((free_machine stdout stderr code).success = false →
        (free_machine stdout stderr code).http_status = 400) := by
  simp only [borrow_machine, free_machine]
  by_cases hc : code = 0
  · simp [hc]
  · cases hb : containsSub ("borrowed").toList (pyLower (strip_ansi stdout)) <;>
      cases hf : containsSub ("freed").toList (pyLower (strip_ansi stdout)) <;>
      simp [hc, hb, hf]

/-- C2: a line processed while the section classifier is in the `ixia` or
`summary` section, or before any section marker has been seen, never
contributes a machine record. -/
theorem claim_C2_inactive_sections_emit_nothing (st : PState) (line : Str)
    (h : st.current_section = none ∨ st.current_section = some .ixia ∨
         st.current_section = some .summary) :
    (stepLine st line).2 = none := by
  have hs : sectionAllows st.current_section = false := by
    rcases h with h | h | h <;> rw [h] <;> rfl
  have hskip : lineSkip st line = true := by simp [lineSkip, hs]
  simp only [stepLine]
  rcases hh : lineHeader st line with _ | st'
  · simp [hskip]
  · rfl

/-- Closed witness for C2: a data-looking line inside the IXIA section. -/
theorem claim_C2_inactive_sections_emit_nothing_witness :
    (stepLine ⟨some .ixia, none, false⟩ ("a‚îÇb‚îÇc‚îÇm9‚îÇv‚îÇAvailable").toList).2 = none :=
  claim_C2_inactive_sections_emit_nothing _ _ (Or.inr (Or.inl rfl))

/-- C10: while the cluster flag is set, a line whose tokenization has at
least 6 but fewer than 10 non-empty fields produces no record: the cluster
branch requires 10 fields and the standalone branch is unreachable. -/
theorem claim_C10_cluster_short_rows_dropped (st : PState) (line : Str)
    (hct : st.is_cluster_table = true)
    (h6 : 6 ≤ (tokenize line).length) (h10 : (tokenize line).length < 10) :
    (stepLine st line).2 = none := by
  have hrow : rowOf st line = none := by
    simp only [rowOf]
    rw [if_neg (by omega), if_neg (fun hc => absurd hc.2 (by omega)),
        if_neg (fun hc => by rw [hct] at hc; exact absurd hc.1 (by simp))]
  simp only [stepLine]
  rcases hh : lineHeader st line with _ | st'
  · by_cases hsk : lineSkip st line = true
    · simp [hsk]
    · simp only [Bool.not_eq_true] at hsk
      simp [hsk, hrow]
  · rfl

/-- Closed witness for C10: a 6-field row inside a cluster section. -/
theorem claim_C10_cluster_short_rows_dropped_witness :
    6 ≤ (tokenize ("a‚îÇb‚îÇc‚îÇm7‚îÇv‚îÇAvailable").toList).length ∧
      (tokenize ("a‚îÇb‚îÇc‚îÇm7‚îÇv‚îÇAvailable").toList).length < 10 ∧
      (stepLine ⟨some (.cluster ['2']), some ['2'], true⟩
        ("a‚îÇb‚îÇc‚îÇm7‚îÇv‚îÇAvailable").toList).2 = none :=
  ⟨by decide, by decide,
    claim_C10_cluster_short_rows_dropped _ _ rfl (by decide) (by decide)⟩

/-- Every record in the output of the line loop was emitted by some
iteration of `stepLine`. -/
theorem mem_runLines {m : Machine} :
    ∀ {st : PState} {ls : List Str}, m ∈ runLines st ls →
      ∃ st' l, (stepLine st' l).2 = some m := by
  intro st ls
  induction ls generalizing st with
  | nil => intro h; simp [runLines] at h
  | cons l ls ih =>
    intro h
    simp only [runLines] at h
    rcases hsl : stepLine st l with ⟨st', m?⟩
    rw [hsl] at h
    cases m? with
    | none => exact ih h
    | some m0 =>
      rcases List.mem_cons.mp h with rfl | hmem
      · exact ⟨st, l, by rw [hsl]⟩
      · exact ih hmem

/-- Any record emitted by `stepLine` carries the state and borrower
computed by the classification chain from its own status field. -/
theorem stepLine_emits_classified {st : PState} {l : Str} {m : Machine}
    (h : (stepLine st l).2 = some m) :
    m.state = (classifyStatus m.status).1 ∧
      m.borrower = (classifyStatus m.status).2 := by
  unfold stepLine at h
  split at h
  · simp at h
  · by_cases hsk : lineSkip st l = true
    · rw [if_pos hsk] at h
      simp at h
    · rw [if_neg hsk] at h
      split at h
      · simp at h
      · rename_i r hr
        unfold rowEmit at h
        by_cases hn1 : r.name.isEmpty = true
        · rw [if_pos hn1] at h
          simp at h
        · rw [if_neg hn1] at h
          by_cases hn2 : r.name = ("wbox_name").toList
          · rw [if_pos hn2] at h
            simp at h
          · rw [if_neg hn2] at h
            by_cases hn3 : (r.name.isEmpty && r.vendor.isEmpty) = true
            · rw [if_pos hn3] at h
              simp at h
            · rw [if_neg hn3] at h
              have h2 : finishMachine r = m := by simpa using h
              subst h2
              simp [finishMachine]

/-- The source's classifier coincides with the claim's chain. -/
theorem classifyStatus_eq_claim (status : Str) :
    classifyStatus status = claimStateBorrower status := by
  unfold classifyStatus claimStateBorrower
  cases h1 : containsSub ("available").toList (pyLower status) <;>
    cases h2 : containsSub ("no ping").toList (pyLower status) <;>
    cases h3 : containsSub ("no ssh").toList (pyLower status) <;>
    cases h4 : containsSub ("no cheetah").toList (pyLower status) <;>
    cases h5 : containsSub ("deploy").toList (pyLower status) <;>
    cases h6 : containsSub ("(").toList (pyLower status) <;>
    simp [h1, h2, h3, h4, h5, h6]

/-- C1: every machine row emitted by `parse_machine_table` has its state
and borrower derived from its raw status text by the claim's first-match
priority chain (including the "(deploy)"-alone fallback to the raw status
as borrower). -/
theorem claim_C1_status_classification (out : Str) :
    ∀ m ∈ parse_machine_table out,
      m.state = (claimStateBorrower m.status).1 ∧
        m.borrower = (claimStateBorrower m.status).2 := by
  intro m hm
  have hm' : m ∈ runLines ⟨none, none, false⟩ (pySplit ['\n'] (strip_ansi out)) := hm
  obtain ⟨st, l, hsl⟩ := mem_runLines hm'
  have hc := stepLine_emits_classified hsl
  rwa [classifyStatus_eq_claim] at hc

/-- Closed witness for C1, checked on a borrowed machine with the
"(deploy)" marker in the status. -/
theorem claim_C1_status_classification_witness :
    ((parse_machine_table w1out).getD 0 emptyMachine).state =
        (claimStateBorrower ((parse_machine_table w1out).getD 0 emptyMachine).status).1 ∧
      ((parse_machine_table w1out).getD 0 emptyMachine).borrower =
        (claimStateBorrower ((parse_machine_table w1out).getD 0 emptyMachine).status).2 :=
  claim_C1_status_classification w1out _ (by decide)

/-- The classifier either suppresses the borrower or marks the row
borrowed with a present borrower. -/
theorem classifyStatus_borrower_cases (status : Str) :
    (classifyStatus status).2 = none ∨
      ((classifyStatus status).1 = .borrowed ∧
        ∃ b, (classifyStatus status).2 = some b) := by
  simp only [classifyStatus]
  repeat' split
  all_goals simp

/-- C9: the borrower field of every record produced by
`parse_machine_table` is populated only when the state is `borrowed`, and
is absent otherwise. -/
theorem claim_C9_borrower_only_when_borrowed (out : Str) :
    ∀ m ∈ parse_machine_table out, m.state ≠ .borrowed → m.borrower = none := by
  intro m hm hne
  have hm' : m ∈ runLines ⟨none, none, false⟩ (pySplit ['\n'] (strip_ansi out)) := hm
  obtain ⟨st, l, hsl⟩ := mem_runLines hm'
  have hc := stepLine_emits_classified hsl
  rcases classifyStatus_borrower_cases m.status with hb | ⟨hs, b, hb⟩
  · rw [hc.2, hb]
  · exact absurd (hc.1.trans hs) hne

/-- Closed witness for C9 on an available machine. -/
theorem claim_C9_borrower_only_when_borrowed_witness :
    ((parse_machine_table w9out).getD 0 emptyMachine).borrower = none :=
  claim_C9_borrower_only_when_borrowed w9out _ (by decide) (by decide)

/-- Boolean prefix test agrees with `List.IsPrefix`. -/
theorem strStarts_iff (p : Str) : ∀ s : Str, strStarts p s = true ↔ p <+: s := by
  induction p with
  | nil => intro s; simp [strStarts]
  | cons a ps ih =>
    intro s
    cases s with
    | nil => simp [strStarts]
    | cons b ss =>
      simp [strStarts, ih, List.cons_prefix_cons, decide_eq_true_eq, and_comm]

/-- Boolean substring test agrees with `List.IsInfix`. -/
theorem containsSub_iff (p : Str) : ∀ s : Str, containsSub p s = true ↔ p <:+: s := by
  intro s
  induction s with
  | nil => simp [containsSub, List.isEmpty_iff]
  | cons c cs ih =>
    simp [containsSub, strStarts_iff, ih, List.infix_cons_iff]

/-- A leading part of a list is also a contiguous part of it. -/
theorem midOfPre {a b : Str} (h : a <+: b) : a <:+: b := by
  rcases h with ⟨r, rfl⟩
  exact ⟨[], r, by simp⟩

/-- A trailing part of a list is also a contiguous part of it. -/
theorem midOfSuf {a b : Str} (h : a <:+ b) : a <:+: b := by
  rcases h with ⟨l, rfl⟩
  exact ⟨l, [], by simp⟩

/-- Every segment produced by the split worker is a contiguous part of the
accumulated characters plus the remaining input. -/
theorem pySplitGo_part (sep : Str) :
    ∀ (n : Nat) (s acc p : Str), p ∈ pySplitGo sep n s acc →
      p <:+: (acc.reverse ++ s) := by
  intro n
  induction n with
  | zero =>
    intro s acc p hp
    cases s with
    | nil =>
      simp only [pySplitGo, List.mem_singleton] at hp
      subst hp
      exact ⟨[], [], by simp⟩
    | cons c cs =>
      simp only [pySplitGo, List.mem_singleton] at hp
      subst hp
      exact ⟨[], [], by simp⟩
  | succ n ih =>
    intro s acc p hp
    cases s with
    | nil =>
      simp only [pySplitGo, List.mem_singleton] at hp
      subst hp
      exact ⟨[], [], by simp⟩
    | cons c cs =>
      simp only [pySplitGo] at hp
      by_cases hpre : strStarts sep (c :: cs) = true
      · rw [if_pos hpre] at hp
        rcases List.mem_cons.mp hp with rfl | hmem
        · exact midOfPre (List.prefix_append _ _)
        · have h1 := ih _ [] p hmem
          simp only [List.reverse_nil, List.nil_append] at h1
          exact h1.trans ((midOfSuf (List.drop_suffix _ _)).trans
            (midOfSuf (List.suffix_append _ _)))
      · rw [if_neg hpre] at hp
        have h1 := ih cs (c :: acc) p hp
        simpa [List.append_assoc] using h1

/-- Every segment of `pySplit` is an infix of the input. -/
theorem pySplit_part {sep s p : Str} (hp : p ∈ pySplit sep s) : p <:+: s := by
  have h := pySplitGo_part sep s.length s [] p hp
  simpa using h

/-- Stripping preserves being a part of the original string. -/
theorem pyStrip_part (p : Str) : pyStrip p <:+: p := by
  have h1 : p.dropWhile pyIsSpace <:+ p := List.dropWhile_suffix _
  have h2 : (p.dropWhile pyIsSpace).reverse.dropWhile pyIsSpace <:+
      (p.dropWhile pyIsSpace).reverse := List.dropWhile_suffix _
  have h3 := Iff.mpr List.reverse_prefix h2
  rw [List.reverse_reverse] at h3
  exact (midOfPre h3).trans (midOfSuf h1)

/-- Every token of a line is an infix of the line. -/
theorem mem_tokenize_part {line p : Str} (hp : p ∈ tokenize line) :
    p <:+: line := by
  unfold tokenize at hp
  have hp' := List.mem_of_mem_filter hp
  rcases List.mem_map.mp hp' with ⟨q, hq, rfl⟩
  exact (pyStrip_part q).trans (pySplit_part hq)

/-- Every token of a line is non-empty. -/
theorem mem_tokenize_ne_nil {line p : Str} (hp : p ∈ tokenize line) :
    p ≠ [] := by
  unfold tokenize at hp
  have := List.of_mem_filter hp
  simpa [List.isEmpty_iff] using this

/-- `getD` within bounds picks a member of the list. -/
theorem getD_mem {l : List Str} {k : Nat} (h : k < l.length) :
    l.getD k [] ∈ l := by
  rw [List.getD_eq_getElem l [] h]
  exact List.getElem_mem h

/-- C3: under the decoration and header filters, a line in an active
standalone or cluster section produces no record when it has fewer than 6
fields; a standalone row maps positions 0-9 to the ten machine fields
(absent trailing positions empty) with no cluster; a cluster row of at
least 10 fields maps position 0 to `nce_id` and positions 1-10 to the
same ten fields, with the current cluster id. -/
theorem claim_C3_column_mapping (st : PState) (line : Str)
    (hA : containsSub ("Stand alone").toList line = false)
    (hB : ¬(containsSub ("Cluster").toList line = true ∧
        containsSub sHRule line = false))
    (hC : containsSub ("DP IXIAs").toList line = false)
    (hD : ¬(containsSub ("Total").toList line = true ∧
        containsSub ("Free").toList line = true ∧
        containsSub ("Taken").toList line = true))
    (hBar : containsSub sVBar line = true)
    (hRule : containsSub sHRule line = false ∧ containsSub sTopLeft line = false ∧
        containsSub sBotLeft line = false ∧ containsSub sLeftTee line = false ∧
        containsSub sDHRule line = false)
    (hHdr : containsSub ("wbox_name").toList line = false ∧
        ¬(containsSub ("vendor").toList line = true ∧
          containsSub ("type").toList line = true ∧
          containsSub ("revision").toList line = true)) :
    (sectionAllows st.current_section = true → (tokenize line).length < 6 →
        (stepLine st line).2 = none)
    ∧ (st.current_section = some .standalone → st.is_cluster_table = false →
        6 ≤ (tokenize line).length →
        ∃ m, (stepLine st line).2 = some m ∧
          m.nce_id = none ∧
          m.vendor = (tokenize line).getD 0 [] ∧
          m.type = (tokenize line).getD 1 [] ∧
          m.revision = (tokenize line).getD 2 [] ∧
          m.name = (tokenize line).getD 3 [] ∧
          m.baseos_version = (tokenize line).getD 4 [] ∧
          m.status = (tokenize line).getD 5 [] ∧
          m.borrow_uptime = (tokenize line).getD 6 [] ∧
          m.git_branch = (tokenize line).getD 7 [] ∧
          m.last_connection = (tokenize line).getD 8 [] ∧
          m.comment = (tokenize line).getD 9 [] ∧
          m.cluster = none)
    ∧ (∀ i, st.current_section = some (.cluster i) → st.is_cluster_table = true →
        st.current_cluster = some i → 10 ≤ (tokenize line).length →
        ∃ m, (stepLine st line).2 = some m ∧
          m.nce_id = some ((tokenize line).getD 0 []) ∧
          m.vendor = (tokenize line).getD 1 [] ∧
          m.type = (tokenize line).getD 2 [] ∧
          m.revision = (tokenize line).getD 3 [] ∧
          m.name = (tokenize line).getD 4 [] ∧
          m.baseos_version = (tokenize line).getD 5 [] ∧
          m.status = (tokenize line).getD 6 [] ∧
          m.borrow_uptime = (tokenize line).getD 7 [] ∧
          m.git_branch = (tokenize line).getD 8 [] ∧
          m.last_connection = (tokenize line).getD 9 [] ∧
          m.comment = (tokenize line).getD 10 [] ∧
          m.cluster = some i) := by
  have hlh : lineHeader st line = none := by
    unfold lineHeader
    rw [if_neg (by rw [hA]; simp),
        if_neg (fun h => hB (by simpa using h)),
        if_neg (by rw [hC]; simp),
        if_neg (fun h => hD (by simpa [and_assoc] using h))]
  have hwbox : containsSub ("wbox_name").toList line = false := hHdr.1
  have hvtr : (containsSub ("vendor").toList line && containsSub ("type").toList line
      && containsSub ("revision").toList line) = false := by
    cases hx : containsSub ("vendor").toList line <;>
      cases hy : containsSub ("type").toList line <;>
      cases hz : containsSub ("revision").toList line <;>
      simp_all
  refine ⟨?_, ?_, ?_⟩
  · intro hsec hlen
    have hskip : lineSkip st line = false := by
      unfold lineSkip
      rw [hsec, hBar, hRule.1, hRule.2.1, hRule.2.2.1, hRule.2.2.2.1,
          hRule.2.2.2.2, hwbox, hvtr]
      rfl
    have hrow : rowOf st line = none := by
      simp only [rowOf]
      rw [if_pos hlen]
    simp [stepLine, hlh, hskip, hrow]
  · intro hsect hflag hlen
    have hsec : sectionAllows st.current_section = true := by
      rw [hsect]; rfl
    have hskip : lineSkip st line = false := by
      unfold lineSkip
      rw [hsec, hBar, hRule.1, hRule.2.1, hRule.2.2.1, hRule.2.2.2.1,
          hRule.2.2.2.2, hwbox, hvtr]
      rfl
    have hrow : rowOf st line = some (mkStandaloneRow (tokenize line)) := by
      simp only [rowOf]
      rw [if_neg (by omega),
          if_neg (fun hc => by rw [hflag] at hc; exact absurd hc.1 (by simp)),
          if_pos ⟨hflag, hlen⟩]
    have hname : (tokenize line).getD 3 [] ≠ [] :=
      mem_tokenize_ne_nil (getD_mem (by omega))
    have hnwbox : (tokenize line).getD 3 [] ≠ ("wbox_name").toList := by
      intro he
      have hinf : ("wbox_name").toList <:+: line :=
        he ▸ mem_tokenize_part (getD_mem (show 3 < (tokenize line).length by omega))
      rw [(containsSub_iff _ _).mpr hinf] at hwbox
      exact absurd hwbox (by simp)
    have hne : (mkStandaloneRow (tokenize line)).name.isEmpty = false := by
      simpa [mkStandaloneRow, List.isEmpty_iff] using hname
    have hemit : rowEmit st (mkStandaloneRow (tokenize line)) =
        (st, some (finishMachine (mkStandaloneRow (tokenize line)))) := by
      unfold rowEmit
      rw [if_neg (by simp [hne]),
          if_neg (by simpa [mkStandaloneRow] using hnwbox),
          if_neg (by simp [hne])]
    refine ⟨finishMachine (mkStandaloneRow (tokenize line)), ?_, ?_⟩
    · simp [stepLine, hlh, hskip, hrow, hemit]
    · simp [finishMachine, mkStandaloneRow]
  · intro i hsect hflag hclus hlen
    have hsec : sectionAllows st.current_section = true := by
      rw [hsect]; rfl
    have hskip : lineSkip st line = false := by
      unfold lineSkip
      rw [hsec, hBar, hRule.1, hRule.2.1, hRule.2.2.1, hRule.2.2.2.1,
          hRule.2.2.2.2, hwbox, hvtr]
      rfl
    have hrow : rowOf st line =
        some (mkClusterRow (tokenize line) st.current_cluster) := by
      simp only [rowOf]
      rw [if_neg (by omega), if_pos ⟨hflag, hlen⟩]
    have hname : (tokenize line).getD 4 [] ≠ [] :=
      mem_tokenize_ne_nil (getD_mem (by omega))
    have hnwbox : (tokenize line).getD 4 [] ≠ ("wbox_name").toList := by
      intro he
      have hinf : ("wbox_name").toList <:+: line :=
        he ▸ mem_tokenize_part (getD_mem (show 4 < (tokenize line).length by omega))
      rw [(containsSub_iff _ _).mpr hinf] at hwbox
      exact absurd hwbox (by simp)
    have hne : (mkClusterRow (tokenize line) st.current_cluster).name.isEmpty = false := by
      simpa [mkClusterRow, List.isEmpty_iff] using hname
    have hemit : rowEmit st (mkClusterRow (tokenize line) st.current_cluster) =
        (st, some (finishMachine (mkClusterRow (tokenize line) st.current_cluster))) := by
      unfold rowEmit
      rw [if_neg (by simp [hne]),
          if_neg (by simpa [mkClusterRow] using hnwbox),
          if_neg (by simp [hne])]
    refine ⟨finishMachine (mkClusterRow (tokenize line) st.current_cluster), ?_, ?_⟩
    · simp [stepLine, hlh, hskip, hrow, hemit]
    · simp [finishMachine, mkClusterRow, hclus]

/-- Closed witness for C3 on a 6-field standalone row. -/
theorem claim_C3_column_mapping_witness :
    ∃ m, (stepLine ⟨some .standalone, none, false⟩ w3line).2 = some m ∧
      m.nce_id = none ∧
      m.vendor = (tokenize w3line).getD 0 [] ∧
      m.type = (tokenize w3line).getD 1 [] ∧
      m.revision = (tokenize w3line).getD 2 [] ∧
      m.name = (tokenize w3line).getD 3 [] ∧
      m.baseos_version = (tokenize w3line).getD 4 [] ∧
      m.status = (tokenize w3line).getD 5 [] ∧
      m.borrow_uptime = (tokenize w3line).getD 6 [] ∧
      m.git_branch = (tokenize w3line).getD 7 [] ∧
      m.last_connection = (tokenize w3line).getD 8 [] ∧
      m.comment = (tokenize w3line).getD 9 [] ∧
      m.cluster = none :=
  (claim_C3_column_mapping ⟨some .standalone, none, false⟩ w3line
    (by decide) (by decide) (by decide) (by decide) (by decide) (by decide)
    (by decide)).2.1 rfl rfl (by decide)

/-- Closed witness for C8 at concrete inputs. -/
theorem claim_C8_action_success_iff_witness :
    ((borrow_machine ("ok Borrowed!").toList [] 1).success = true) ∧
      ((free_machine ("nope").toList [] 1).success = false) :=
  ⟨((claim_C8_action_success_iff ("ok Borrowed!").toList [] 1).1).2
      (Or.inr (by decide)),
   by
    have h := ((claim_C8_action_success_iff ("nope").toList [] 1).2.1)
    cases hs : (free_machine ("nope").toList [] 1).success
    · rfl
    · exact absurd (h.1 hs) (by decide)⟩

/-! ## Properties of the ANSI stripper -/

/-- Unfolding equation of the scanner outside a match. -/
theorem saGo_none_cons (c : Char) (cs : Str) :
    saGo SA.none (c :: cs) =
      if c = escChar then saGo SA.esc cs else c :: saGo SA.none cs := rfl

/-- Unfolding equation of the scanner after `ESC`. -/
theorem saGo_esc_cons (c : Char) (cs : Str) :
    saGo SA.esc (c :: cs) =
      if c = '[' then saGo (SA.brk []) cs
      else escChar :: (if c = escChar then saGo SA.esc cs
        else c :: saGo SA.none cs) := rfl

/-- Unfolding equation of the scanner inside a bracket run. -/
theorem saGo_brk_cons (run : Str) (c : Char) (cs : Str) :
    saGo (SA.brk run) (c :: cs) =
      if c = 'm' then saGo SA.none cs
      else if isDigitSemi c then saGo (SA.brk (c :: run)) cs
      else escChar :: '[' :: run.reverse ++
        (if c = escChar then saGo SA.esc cs else c :: saGo SA.none cs) := rfl

/-- `hasSGR` is monotone along the tail. -/
theorem hasSGR_tail {c : Char} {cs : Str} (h : hasSGR (c :: cs) = false) :
    hasSGR cs = false := by
  simp only [hasSGR, Bool.or_eq_false_iff] at h
  exact h.2

/-- A clean concatenation has a clean right part. -/
theorem hasSGR_append {s : Str} : ∀ (l : Str), hasSGR (l ++ s) = false →
    hasSGR s = false := by
  intro l
  induction l with
  | nil => exact fun h => h
  | cons c cs ih => exact fun h => ih (hasSGR_tail h)

/-- A digit/semicolon run followed by `m` is a successful SGR tail. -/
theorem runM_all_m {run : Str} (h : ∀ c ∈ run, isDigitSemi c = true)
    (t : Str) : runM (run ++ 'm' :: t) = true := by
  have htake : (run ++ 'm' :: t).takeWhile isDigitSemi = run := by
    induction run with
    | nil => simp [List.takeWhile_cons, show isDigitSemi 'm' = false from by decide]
    | cons a run ih =>
      simp [List.takeWhile_cons, h a (by simp),
        ih (fun c hc => h c (by simp [hc]))]
  unfold runM
  rw [htake, List.drop_left]
  rfl

/-- The scanner's output is a sublist of its pending characters plus the
remaining input: no character is ever invented or reordered. -/
theorem saGo_sublist : ∀ (s : Str) (st : SA), (saGo st s).Sublist (pend st ++ s) := by
  intro s
  induction s with
  | nil =>
    intro st
    cases st <;> simp [saGo, pend]
  | cons c cs ih =>
    intro st
    cases st with
    | none =>
      by_cases hc : c = escChar
      · subst hc
        simp only [saGo, pend]
        rw [if_pos (by trivial)]
        simpa [pend] using ih SA.esc
      · simp only [saGo, pend]
        rw [if_neg hc]
        simpa [pend] using (ih SA.none).cons₂ c
    | esc =>
      by_cases hbr : c = '['
      · subst hbr
        simp only [saGo, pend]
        rw [if_pos (by trivial)]
        simpa [pend] using ih (SA.brk [])
      · simp only [saGo, pend]
        rw [if_neg hbr]
        by_cases hc : c = escChar
        · subst hc
          rw [if_pos (by trivial)]
          exact (by simpa [pend] using ih SA.esc : (saGo SA.esc cs).Sublist
            (escChar :: cs)).cons₂ escChar
        · rw [if_neg hc]
          exact ((by simpa [pend] using ih SA.none : (saGo SA.none cs).Sublist
            cs).cons₂ c).cons₂ escChar
    | brk run =>
      by_cases hm : c = 'm'
      · subst hm
        simp only [saGo, pend]
        rw [if_pos (by trivial)]
        have h1 : (saGo SA.none cs).Sublist cs := by simpa [pend] using ih SA.none
        exact h1.trans ((List.sublist_cons_self _ _).trans
          (List.sublist_append_right _ _))
      · by_cases hd : isDigitSemi c = true
        · simp only [saGo, pend]
          rw [if_neg hm, if_pos hd]
          have h1 := ih (SA.brk (c :: run))
          simpa [pend, List.append_assoc] using h1
        · simp only [saGo, pend]
          rw [if_neg hm, if_neg hd]
          have hinner : (if c = escChar then saGo SA.esc cs
              else c :: saGo SA.none cs).Sublist (c :: cs) := by
            by_cases hc : c = escChar
            · subst hc
              rw [if_pos (by trivial)]
              simpa [pend] using ih SA.esc
            · rw [if_neg hc]
              exact (by simpa [pend] using ih SA.none : (saGo SA.none cs).Sublist
                cs).cons₂ c
          simpa using hinner.append_left (escChar :: '[' :: run.reverse)

/-- On input containing no SGR match, the scanner flushes everything
verbatim. -/
theorem saGo_id : ∀ (s : Str) (st : SA), goodSA st →
    hasSGR (pend st ++ s) = false → saGo st s = pend st ++ s := by
  intro s
  induction s with
  | nil =>
    intro st _ _
    cases st <;> simp [saGo, pend]
  | cons c cs ih =>
    intro st hg hn
    cases st with
    | none =>
      by_cases hc : c = escChar
      · subst hc
        simp only [saGo, pend]
        rw [if_pos (by trivial)]
        simpa [pend] using ih SA.esc trivial (by simpa [pend] using hn)
      · simp only [saGo, pend]
        rw [if_neg hc]
        have h1 := ih SA.none trivial
          (by simpa [pend] using hasSGR_tail (by simpa [pend] using hn))
        simp [pend] at h1
        simp [h1]
    | esc =>
      by_cases hbr : c = '['
      · subst hbr
        simp only [saGo, pend]
        rw [if_pos (by trivial)]
        have h1 := ih (SA.brk []) (by intro x hx; cases hx)
          (by simpa [pend] using hn)
        simpa [pend] using h1
      · simp only [saGo, pend]
        rw [if_neg hbr]
        have hn' : hasSGR (c :: cs) = false := hasSGR_tail (by simpa [pend] using hn)
        by_cases hc : c = escChar
        · subst hc
          rw [if_pos (by trivial)]
          have h1 := ih SA.esc trivial (by simpa [pend] using hn')
          simpa [pend] using h1
        · rw [if_neg hc]
          have h1 := ih SA.none trivial (by simpa [pend] using hasSGR_tail hn')
          simp [pend] at h1
          simp [h1]
    | brk run =>
      by_cases hm : c = 'm'
      · exfalso
        subst hm
        have hrun : ∀ x ∈ run.reverse, isDigitSemi x = true := by
          intro x hx
          exact hg x (List.mem_reverse.mp hx)
        have hmatch : hasSGR (pend (SA.brk run) ++ 'm' :: cs) = true := by
          simp [pend, hasSGR, sgrHead, runM_all_m hrun]
        rw [hn] at hmatch
        cases hmatch
      · by_cases hd : isDigitSemi c = true
        · simp only [saGo, pend]
          rw [if_neg hm, if_pos hd]
          have hg' : goodSA (SA.brk (c :: run)) := by
            intro x hx
            rcases List.mem_cons.mp hx with rfl | hx
            · exact hd
            · exact hg x hx
          have hpe : pend (SA.brk (c :: run)) ++ cs = pend (SA.brk run) ++ c :: cs := by
            simp [pend, List.append_assoc]
          have h1 := ih (SA.brk (c :: run)) hg' (by rw [hpe]; exact hn)
          rw [h1, hpe]
          simp [pend]
        · simp only [saGo, pend]
          rw [if_neg hm, if_neg hd]
          have hn0 : hasSGR ((escChar :: '[' :: run.reverse) ++ c :: cs) = false := by
            simpa [pend] using hn
          have hn' : hasSGR (c :: cs) = false := hasSGR_append _ hn0
          by_cases hc : c = escChar
          · subst hc
            rw [if_pos (by trivial)]
            have h1 := ih SA.esc trivial (by simpa [pend] using hn')
            simp [pend] at h1
            simp [h1]
          · rw [if_neg hc]
            have h1 := ih SA.none trivial (by simpa [pend] using hasSGR_tail hn')
            simp [pend] at h1
            simp [h1]

/-- Running the scanner over a digit/semicolon run that terminates in `m`
completes the match and discards it. -/
theorem saGo_brk_run : ∀ (run acc t : Str), (∀ c ∈ run, isDigitSemi c = true) →
    saGo (SA.brk acc) (run ++ 'm' :: t) = saGo SA.none t := by
  intro run
  induction run with
  | nil =>
    intro acc t _
    simp only [List.nil_append, saGo]
    rw [if_pos (by trivial)]
  | cons a run ih =>
    intro acc t h
    have ha := h a (by simp)
    have ham : a ≠ 'm' := by
      intro he
      rw [he] at ha
      exact absurd ha (by decide)
    simp only [List.cons_append, saGo]
    rw [if_neg ham, if_pos ha]
    exact ih (a :: acc) t (fun c hc => h c (by simp [hc]))

/-- A failed bracket run is flushed verbatim and scanning resumes. -/
theorem saGo_brk_fail : ∀ (r acc : Str), runM r = false →
    saGo (SA.brk acc) r = escChar :: '[' :: acc.reverse ++ saGo SA.none r := by
  intro r
  induction r with
  | nil =>
    intro acc h
    simp [saGo]
  | cons c cs ih =>
    intro acc h
    by_cases hm : c = 'm'
    · exfalso
      subst hm
      have : runM ('m' :: cs) = true := rfl
      rw [h] at this
      cases this
    · by_cases hd : isDigitSemi c = true
      · simp only [saGo]
        rw [if_neg hm, if_pos hd]
        have hc' : runM cs = false := by
          unfold runM at h ⊢
          simpa [List.takeWhile_cons, hd] using h
        rw [ih (c :: acc) hc']
        have hce : c ≠ escChar := by
          intro he
          rw [he] at hd
          exact absurd hd (by decide)
        rw [if_neg hce]
        simp [List.append_assoc]
      · simp only [saGo]
        rw [if_neg hm, if_neg hd]

/-- C5: `strip_ansi` removes exactly the SGR escape sequences
`ESC [ digits/semicolons m`: the output is a subsequence of the input
(all other characters preserved in order); input with no such sequence is
returned unchanged; a leading SGR sequence is deleted whole; and a
position where no sequence starts contributes its character verbatim. -/
theorem claim_C5_strip_ansi_exact (s : Str) :
    (strip_ansi s).Sublist s ∧
    (hasSGR s = false → strip_ansi s = s) ∧
    (∀ pre t, IsSGRSeq pre → strip_ansi (pre ++ t) = strip_ansi t) ∧
    (∀ c t, sgrAt (c :: t) = false → strip_ansi (c :: t) = c :: strip_ansi t) := by
  refine ⟨?_, ?_, ?_, ?_⟩
  · simpa [pend] using saGo_sublist s SA.none
  · intro h
    simpa [pend] using saGo_id s SA.none trivial (by simpa [pend] using h)
  · rintro pre t ⟨run, hrun, rfl⟩
    show saGo SA.none ((escChar :: '[' :: (run ++ ['m'])) ++ t) = saGo SA.none t
    have he : (escChar :: '[' :: (run ++ ['m'])) ++ t =
        escChar :: '[' :: (run ++ 'm' :: t) := by
      simp
    rw [he, saGo_none_cons, if_pos rfl, saGo_esc_cons, if_pos rfl]
    exact saGo_brk_run run [] t hrun
  · intro c t h
    unfold strip_ansi
    by_cases hc : c = escChar
    · subst hc
      have hh : sgrHead t = false := by simpa [sgrAt] using h
      rw [saGo_none_cons, if_pos rfl]
      cases t with
      | nil => rfl
      | cons d r =>
        by_cases hd : d = '['
        · subst hd
          have hr : runM r = false := by simpa [sgrHead] using hh
          rw [saGo_esc_cons, if_pos rfl, saGo_brk_fail r [] hr,
              saGo_none_cons, if_neg (show ('[' : Char) ≠ escChar from by decide)]
          simp
        · rw [saGo_esc_cons, if_neg hd, saGo_none_cons]
    · rw [saGo_none_cons, if_neg hc]

/-- Closed witness for C5: a clean string is fixed, and a concrete SGR
sequence at the head is removed whole. -/
theorem claim_C5_strip_ansi_exact_witness :
    hasSGR ("ab").toList = false ∧
      strip_ansi ("ab").toList = ("ab").toList ∧
      IsSGRSeq [escChar, '[', '3', '1', 'm'] ∧
      strip_ansi ([escChar, '[', '3', '1', 'm'] ++ ("xy").toList) =
        strip_ansi ("xy").toList :=
  ⟨by decide, (claim_C5_strip_ansi_exact ("ab").toList).2.1 (by decide),
   ⟨['3', '1'], by decide, rfl⟩,
   (claim_C5_strip_ansi_exact []).2.2.1 _ _ ⟨['3', '1'], by decide, rfl⟩⟩

end Webborrow
